import Mathlib

/-!
Verification of the mobilecli daemon (Rust) against its natural-language
specification, via a shallow embedding of the claim-relevant code paths.

Source files embedded here:
  * `src/cli/src/daemon.rs` — PTY session handling (scrollback ring,
    wait-state deduplication and clearing, resize gating, refcount cleanup),
    `check_fs_rate_limit`.
  * `src/cli/src/filesystem/security.rs` — `PathValidator`.
  * `src/cli/src/filesystem/operations.rs` — `write_file` / `read_file`
    cores, `copy_dir_recursive`.
  * `src/cli/src/filesystem/rate_limit.rs` — `RateLimiter`.

Bytes are modelled as `Nat` (the byte values never matter to the claims),
machine integers as `Nat`/`Int` (no claim-relevant overflow occurs: sizes
are bounded far below 2^64 by configuration), `f64` arithmetic of the rate
limiter as exact rationals, and OS calls (canonicalisation, symlink
metadata) as explicit oracles passed to the functions that perform them.
-/

/-! ## Scrollback ring (`daemon.rs`, `handle_pty_session`)

The handler appends each decoded `pty_output` chunk to
`session.scrollback` and then front-trims with
`while session.scrollback.len() > session.scrollback_max_bytes
   { session.scrollback.pop_front(); }`. -/

/-- `const DEFAULT_SCROLLBACK_MAX_BYTES: usize = 64 * 1024` (`daemon.rs`). -/
def DEFAULT_SCROLLBACK_MAX_BYTES : Nat := 64 * 1024

/-- The `while len > max { pop_front() }` loop of the scrollback trim,
byte-for-byte: repeatedly drop the front element while the buffer is over
the limit. -/
def trimFront (maxBytes : Nat) : List Nat → List Nat
  | [] => []
  | x :: rest =>
      if (x :: rest).length > maxBytes then trimFront maxBytes rest
      else x :: rest

/-- One ingestion step of `handle_pty_session` on the scrollback:
`scrollback.extend(bytes)` followed by the front-trimming loop. -/
def scrollbackIngest (maxBytes : Nat) (scrollback chunk : List Nat) : List Nat :=
  trimFront maxBytes (scrollback ++ chunk)

/-- The last `n` elements of a list (all of it when `n ≥ length`). -/
def lastBytes (n : Nat) (l : List Nat) : List Nat :=
  l.drop (l.length - n)

theorem trimFront_eq_drop (maxBytes : Nat) (l : List Nat) :
    trimFront maxBytes l = l.drop (l.length - maxBytes) := by
  induction l with
  | nil => simp [trimFront]
  | cons x rest ih =>
      rw [trimFront]
      by_cases h : (x :: rest).length > maxBytes
      · rw [if_pos h, ih]
        have hlen : (x :: rest).length - maxBytes = (rest.length - maxBytes) + 1 := by
          simp only [List.length_cons] at h ⊢
          omega
        rw [hlen, List.drop_succ_cons]
      · rw [if_neg h]
        have hlen : (x :: rest).length - maxBytes = 0 := by
          simp only [List.length_cons] at h ⊢
          omega
        rw [hlen, List.drop_zero]

theorem scrollbackIngest_eq_lastBytes (maxBytes : Nat) (scrollback chunk : List Nat) :
    scrollbackIngest maxBytes scrollback chunk =
      lastBytes maxBytes (scrollback ++ chunk) := by
  simp [scrollbackIngest, lastBytes, trimFront_eq_drop]

theorem lastBytes_length (n : Nat) (l : List Nat) :
    (lastBytes n l).length = min l.length n := by
  simp [lastBytes]
  omega

/-- Absorption: trimming the tail of an already-trimmed stream plus a new
chunk equals trimming the whole stream. -/
theorem lastBytes_append_lastBytes (n : Nat) (s c : List Nat) :
    lastBytes n (lastBytes n s ++ c) = lastBytes n (s ++ c) := by
  rcases Nat.le_total s.length n with h | h
  · have h0 : s.length - n = 0 := by omega
    simp [lastBytes, h0]
  · have hle : s.length - n ≤ s.length := Nat.sub_le _ _
    simp only [lastBytes, List.length_append, List.length_drop,
      ← List.drop_append_of_le_length hle, List.drop_drop]
    congr 1
    omega

/-- Folding the ingest step over a chunk list, starting from an empty ring,
matches the last-`maxBytes` window of the concatenated stream. -/
theorem scrollback_foldl (maxBytes : Nat) (chunks : List (List Nat)) :
    chunks.foldl (scrollbackIngest maxBytes) [] = lastBytes maxBytes chunks.flatten := by
  suffices h : ∀ (init : List Nat) (cs : List (List Nat)),
      cs.foldl (scrollbackIngest maxBytes) (lastBytes maxBytes init) =
        lastBytes maxBytes (init ++ cs.flatten) by
    have := h [] chunks
    simpa [lastBytes] using this
  intro init cs
  induction cs generalizing init with
  | nil => simp
  | cons c cs ih =>
      simp only [List.foldl_cons, List.flatten_cons]
      rw [scrollbackIngest_eq_lastBytes, lastBytes_append_lastBytes, ih (init ++ c)]
      simp [List.append_assoc]

/-- **C4** — Scrollback ring invariant: after ingesting chunks totalling
`n` bytes, the scrollback holds exactly `min n S_MAX` bytes (with
`S_MAX = DEFAULT_SCROLLBACK_MAX_BYTES = 64 KiB`), its contents equal the
last `min n S_MAX` bytes of the stream in emission order, and the bound
`|scrollback| ≤ S_MAX` holds after every ingestion step. -/
theorem scrollback_ring_invariant (chunks : List (List Nat)) :
    DEFAULT_SCROLLBACK_MAX_BYTES = 64 * 1024 ∧
    (chunks.foldl (scrollbackIngest DEFAULT_SCROLLBACK_MAX_BYTES) []).length =
      min chunks.flatten.length DEFAULT_SCROLLBACK_MAX_BYTES ∧
    chunks.foldl (scrollbackIngest DEFAULT_SCROLLBACK_MAX_BYTES) [] =
      lastBytes DEFAULT_SCROLLBACK_MAX_BYTES chunks.flatten ∧
    ∀ pre : List (List Nat), pre <+: chunks →
      (pre.foldl (scrollbackIngest DEFAULT_SCROLLBACK_MAX_BYTES) []).length ≤
        DEFAULT_SCROLLBACK_MAX_BYTES := by
  refine ⟨rfl, ?_, scrollback_foldl _ _, ?_⟩
  · rw [scrollback_foldl, lastBytes_length]
  · intro pre _
    rw [scrollback_foldl, lastBytes_length]
    omega

/-- Witness for `scrollback_ring_invariant` at a concrete chunk list and a
concrete prefix. -/
theorem scrollback_ring_invariant_witness :
    ([[1, 2], [3]] : List (List Nat)).foldl
        (scrollbackIngest DEFAULT_SCROLLBACK_MAX_BYTES) [] =
      lastBytes DEFAULT_SCROLLBACK_MAX_BYTES [1, 2, 3] ∧
    (([[1, 2]] : List (List Nat)).foldl
        (scrollbackIngest DEFAULT_SCROLLBACK_MAX_BYTES) []).length ≤
      DEFAULT_SCROLLBACK_MAX_BYTES := by
  have h := scrollback_ring_invariant [[1, 2], [3]]
  exact ⟨h.2.2.1, h.2.2.2 [[1, 2]] ⟨[[3]], rfl⟩⟩

/-! ## Resize gating (`daemon.rs`, `process_client_msg`, `ClientMessage::PtyResize`)

The handler reads the view count (`session_view_counts.get(&session_id)
.copied().unwrap_or(0) > 0`), ignores a non-sentinel resize with no
viewers, and otherwise forwards `(cols, rows)` to the session's
`resize_tx` when the session exists. -/

/-- The slice of `DaemonState` that `PtyResize` handling reads:
`session_view_counts` (a map, absent key ↦ reads as 0) and the key set of
`sessions`. `cols`/`rows` are `u16`; no arithmetic is performed on them,
so `Nat` is a faithful carrier. -/
structure ResizeView where
  session_view_counts : String → Option Nat
  session_ids : List String

/-- `ClientMessage::PtyResize` handling: returns the `(cols, rows)` pair
sent to the session's `resize_tx`, or `none` when nothing is forwarded. -/
def process_pty_resize (st : ResizeView) (session_id : String)
    (cols rows : Nat) : Option (Nat × Nat) :=
  let is_restore := cols == 0 && rows == 0
  let has_viewers := ((st.session_view_counts session_id).getD 0) > 0
  if !is_restore && !has_viewers then none
  else if session_id ∈ st.session_ids then some (cols, rows)
  else none

/-- **C5** — Resize gating: a `PtyResize` with `cols > 0` and `rows > 0`
for a session with zero viewers is not forwarded; the sentinel `(0,0)` is
forwarded regardless of the view count; with at least one viewer every
resize is forwarded. -/
theorem resize_gating (st : ResizeView) (session_id : String) (cols rows : Nat)
    (hsess : session_id ∈ st.session_ids) :
    (cols > 0 → rows > 0 → (st.session_view_counts session_id).getD 0 = 0 →
      process_pty_resize st session_id cols rows = none) ∧
    process_pty_resize st session_id 0 0 = some (0, 0) ∧
    ((st.session_view_counts session_id).getD 0 > 0 →
      process_pty_resize st session_id cols rows = some (cols, rows)) := by
  refine ⟨?_, ?_, ?_⟩
  · intro hc _hr hz
    have hc' : ¬ cols = 0 := by omega
    simp [process_pty_resize, hc', hz]
  · simp [process_pty_resize, hsess]
  · intro hv
    simp [process_pty_resize, hsess, Nat.not_eq_zero_of_lt hv]

/-- Witness for `resize_gating`: one session `"S1"` with no viewers; a
`(80, 24)` resize is dropped, `(0, 0)` is forwarded. -/
theorem resize_gating_witness :
    process_pty_resize ⟨fun _ => none, ["S1"]⟩ "S1" 80 24 = none ∧
    process_pty_resize ⟨fun _ => none, ["S1"]⟩ "S1" 0 0 = some (0, 0) := by
  have h := resize_gating ⟨fun _ => none, ["S1"]⟩ "S1" 80 24 (by simp)
  exact ⟨h.1 (by decide) (by decide) rfl, h.2.1⟩

/-! ## Wait-state handling (`daemon.rs`, `handle_pty_session`)

For each decoded `pty_output` chunk the handler computes
`normalized_chunk = strip_ansi_and_normalize(&text)` and, when it is
non-empty, runs `detect_wait_event(&output_buffer, cli_type)`. On
`Some(wait_event)` it stores a new `WaitingState`, broadcasts
`WaitingForInput` and spawns the push-notification task exactly when
`is_new` holds; on `None` it clears the waiting state and broadcasts
`WaitingCleared` when `session.waiting_state.is_some() &&
normalized_chunk.trim().chars().count() >= 10`.

`detect_wait_event` and `strip_ansi_and_normalize` live in the `detection`
module, which is not under `src/`; the detector's result is therefore an
explicit parameter of the step, and the normaliser is modelled from the
spec where a concrete normalised text is needed. -/

/-- `WaitType` (`daemon.rs` / spec §3). -/
inductive WaitType where
  | tool_approval
  | plan_approval
  | clarifying_question
  | awaiting_response
deriving DecidableEq, Repr

/-- `ApprovalModel` (`daemon.rs` / spec §3). -/
inductive ApprovalModel where
  | numbered
  | yes_no
  | arrow
  | none
deriving DecidableEq, Repr

/-- `WaitingState` (`daemon.rs`). `timestamp` (`chrono::DateTime<Utc>`) is
modelled as an abstract tick supplied to the step. -/
structure WaitingState where
  wait_type : WaitType
  prompt_content : String
  timestamp : Nat
  approval_model : ApprovalModel
  prompt_hash : Nat
deriving DecidableEq, Repr

/-- `crate::detection::WaitEvent` as consumed by `handle_pty_session`:
`(wait_type, prompt, approval_model, prompt_hash)`. -/
structure WaitEvent where
  wait_type : WaitType
  prompt : String
  approval_model : ApprovalModel
  prompt_hash : Nat
deriving DecidableEq, Repr

/-- The per-session wait fields the step mutates. -/
structure SessionWaitView where
  waiting_state : Option WaitingState
  last_wait_hash : Option Nat
deriving DecidableEq, Repr

/-- Observable outcome of one chunk's wait processing. -/
structure WaitStepResult where
  session : SessionWaitView
  broadcast_waiting_for_input : Bool
  push_enqueued : Bool
  broadcast_waiting_cleared : Bool
deriving DecidableEq, Repr

/-- `session.waiting_state.as_ref().map(|w| w.prompt_hash !=
wait_event.prompt_hash || w.wait_type != wait_event.wait_type)
.unwrap_or(true)` (`daemon.rs`). -/
def is_new_wait (s : SessionWaitView) (e : WaitEvent) : Bool :=
  match s.waiting_state with
  | some w => w.prompt_hash != e.prompt_hash || w.wait_type != e.wait_type
  | none => true

/-- Rust `normalized_chunk.trim().chars().count()`: length of the
character sequence after removing leading and trailing whitespace. -/
def trimmedCharCount (s : String) : Nat :=
  (((s.toList.dropWhile Char.isWhitespace).reverse.dropWhile
      Char.isWhitespace).reverse).length

/-- Wait processing for one `pty_output` chunk (`daemon.rs`,
`handle_pty_session`): guarded by `!normalized_chunk.is_empty()` (no bytes
⟺ no chars); dedup on `Some(wait_event)`, clearing on `None`. -/
def process_pty_output_wait (s : SessionWaitView) (normalized_chunk : String)
    (detected : Option WaitEvent) (now : Nat) : WaitStepResult :=
  if normalized_chunk.toList.isEmpty then ⟨s, false, false, false⟩
  else
    match detected with
    | some e =>
        if is_new_wait s e then
          ⟨⟨some ⟨e.wait_type, e.prompt, now, e.approval_model, e.prompt_hash⟩,
            some e.prompt_hash⟩, true, true, false⟩
        else ⟨s, false, false, false⟩
    | none =>
        if s.waiting_state.isSome && decide (10 ≤ trimmedCharCount normalized_chunk) then
          ⟨⟨none, none⟩, false, false, true⟩
        else ⟨s, false, false, false⟩

/-- **C3** — Wait-event deduplication: on a detected event the session
transitions to the event's `WaitingState`, `WaitingForInput` is broadcast
and a push is enqueued exactly when no prior waiting state exists or the
detected `(wait_type, prompt_hash)` differs from the stored one; an event
matching the stored pair changes nothing and emits nothing. -/
theorem wait_event_dedup (s : SessionWaitView) (chunk : String) (e : WaitEvent)
    (now : Nat) (hne : chunk.toList.isEmpty = false) :
    ((process_pty_output_wait s chunk (some e) now).broadcast_waiting_for_input = true ∧
       (process_pty_output_wait s chunk (some e) now).push_enqueued = true ↔
     s.waiting_state = none ∨
       ∀ w, s.waiting_state = some w →
         w.prompt_hash ≠ e.prompt_hash ∨ w.wait_type ≠ e.wait_type) ∧
    ((process_pty_output_wait s chunk (some e) now).broadcast_waiting_for_input = true →
       (process_pty_output_wait s chunk (some e) now).session.waiting_state =
         some ⟨e.wait_type, e.prompt, now, e.approval_model, e.prompt_hash⟩) ∧
    (∀ w, s.waiting_state = some w → w.prompt_hash = e.prompt_hash →
       w.wait_type = e.wait_type →
       process_pty_output_wait s chunk (some e) now = ⟨s, false, false, false⟩) := by
  have hne' : ¬ chunk.data = [] := by simpa using hne
  cases hw : s.waiting_state with
  | none =>
      simp [process_pty_output_wait, is_new_wait, hne', hw]
  | some w =>
      by_cases hh : w.prompt_hash = e.prompt_hash
      · by_cases ht : w.wait_type = e.wait_type
        · simp [process_pty_output_wait, is_new_wait, hne', hw, hh, ht]
        · simp [process_pty_output_wait, is_new_wait, hne', hw, hh, ht]
      · simp [process_pty_output_wait, is_new_wait, hne', hw, hh]

/-- Witness for `wait_event_dedup`: fresh session, concrete event. -/
theorem wait_event_dedup_witness :
    (process_pty_output_wait ⟨Option.none, Option.none⟩ "Allow this tool?"
        (some ⟨WaitType.tool_approval, "Allow this tool?", ApprovalModel.numbered, 42⟩)
        5).broadcast_waiting_for_input = true ∧
    (process_pty_output_wait ⟨Option.none, Option.none⟩ "Allow this tool?"
        (some ⟨WaitType.tool_approval, "Allow this tool?", ApprovalModel.numbered, 42⟩)
        5).push_enqueued = true :=
  (wait_event_dedup ⟨Option.none, Option.none⟩ "Allow this tool?"
      ⟨WaitType.tool_approval, "Allow this tool?", ApprovalModel.numbered, 42⟩ 5
      (by decide)).1.mpr (Or.inl rfl)

/-! ## Wait clearing on substantive output (C6) -/

/-- Number of non-whitespace characters of a string (the quantity the
spec's clearing rule speaks about). -/
def nonWhitespaceCount (s : String) : Nat :=
  (s.toList.filter (fun c => !c.isWhitespace)).length

/-- Scanner state for ANSI stripping: plain text / just saw `ESC` /
inside a CSI sequence. -/
inductive AnsiMode where
  | text
  | escSeen
  | csi
deriving DecidableEq, Repr

/-- Modelled from the spec: the ANSI-stripping half of
`strip_ansi_and_normalize` (module `detection`, not under `src/`).
Spec §4.3: the handler appends "the ANSI-stripped, whitespace-normalised"
text. A `ESC [ params final-byte` (CSI) sequence is dropped whole (final
byte in `0x40..=0x7E`); a bare `ESC` and its following character are
dropped; everything else is kept. -/
def stripAnsiGo : AnsiMode → List Char → List Char
  | _, [] => []
  | .text, c :: rest =>
      if c = Char.ofNat 27 then stripAnsiGo .escSeen rest
      else c :: stripAnsiGo .text rest
  | .escSeen, c :: rest =>
      if c = '[' then stripAnsiGo .csi rest
      else stripAnsiGo .text rest
  | .csi, c :: rest =>
      if 0x40 ≤ c.toNat ∧ c.toNat ≤ 0x7E then stripAnsiGo .text rest
      else stripAnsiGo .csi rest

/-- Modelled from the spec: the whitespace-normalisation half of
`strip_ansi_and_normalize`: each maximal run of whitespace characters is
collapsed to a single space. The flag records whether the previous kept
character was part of a whitespace run. -/
def collapseWsGo : Bool → List Char → List Char
  | _, [] => []
  | prevWs, c :: rest =>
      if c.isWhitespace then
        if prevWs then collapseWsGo true rest
        else ' ' :: collapseWsGo true rest
      else c :: collapseWsGo false rest

/-- Modelled from the spec: `strip_ansi_and_normalize` from the missing
`detection` module — ANSI escapes stripped, whitespace runs collapsed to
single spaces (spec §4.3 (iii)). -/
def strip_ansi_and_normalize (s : String) : String :=
  String.mk (collapseWsGo false (stripAnsiGo AnsiMode.text s.toList))

/-- **C6 (counterexample)** — The claim "if the chunk has fewer than 10
non-whitespace characters, the waiting state is kept" is false on the
code: the chunk `"ab cd ef g"` normalises to itself, has 7 non-whitespace
characters, yet `trim().chars().count() = 10`, so the handler clears the
waiting state and broadcasts `WaitingCleared`. -/
theorem wait_clearing_counterexample :
    strip_ansi_and_normalize "ab cd ef g" = "ab cd ef g" ∧
    nonWhitespaceCount (strip_ansi_and_normalize "ab cd ef g") = 7 ∧
    ¬ 10 ≤ nonWhitespaceCount (strip_ansi_and_normalize "ab cd ef g") ∧
    (process_pty_output_wait
        ⟨some ⟨WaitType.awaiting_response, "continue?", 0, ApprovalModel.none, 7⟩,
          some 7⟩
        (strip_ansi_and_normalize "ab cd ef g") Option.none 1) =
      ⟨⟨Option.none, Option.none⟩, false, false, true⟩ := by
  refine ⟨by decide, by decide, by decide, by decide⟩

/-- **C6 (amended)** — Wait clearing on substantive output: when the
detector returns no event, the waiting state is cleared and
`WaitingCleared` broadcast exactly when a waiting state exists and the
*trimmed* normalised chunk is at least 10 characters long (interior
whitespace counted, per `normalized_chunk.trim().chars().count() >= 10`);
with a trimmed length below 10 the session is left unchanged. Since every
non-whitespace character survives trimming, a chunk with at least 10
non-whitespace characters still always clears. -/
theorem wait_clearing (s : SessionWaitView) (chunk : String) (now : Nat) :
    (s.waiting_state.isSome = true → 10 ≤ trimmedCharCount chunk →
      (process_pty_output_wait s chunk Option.none now).session.waiting_state =
          Option.none ∧
        (process_pty_output_wait s chunk Option.none now).broadcast_waiting_cleared =
          true) ∧
    (trimmedCharCount chunk < 10 →
      (process_pty_output_wait s chunk Option.none now).session = s ∧
        (process_pty_output_wait s chunk Option.none now).broadcast_waiting_cleared =
          false) ∧
    (10 ≤ nonWhitespaceCount chunk → 10 ≤ trimmedCharCount chunk) := by
  refine ⟨?_, ?_, ?_⟩
  · intro hsome h10
    have hne : ¬ chunk.data = [] := by
      intro hd
      have : trimmedCharCount chunk = 0 := by
        simp [trimmedCharCount, String.toList, hd]
      omega
    simp [process_pty_output_wait, hne, hsome, h10]
  · intro hlt
    by_cases hne : chunk.data = []
    · simp [process_pty_output_wait, hne]
    · have : ¬ 10 ≤ trimmedCharCount chunk := by omega
      simp [process_pty_output_wait, hne, this]
  · intro h10
    have key : ∀ l : List Char,
        (l.dropWhile Char.isWhitespace).filter (fun c => !c.isWhitespace) =
          l.filter (fun c => !c.isWhitespace) := by
      intro l
      induction l with
      | nil => simp
      | cons c rest ih =>
          by_cases hw : c.isWhitespace
          · simp [List.dropWhile_cons, hw, List.filter_cons, ih]
          · simp [List.dropWhile_cons, hw, List.filter_cons]
    have heq : ((((chunk.toList.dropWhile Char.isWhitespace).reverse.dropWhile
          Char.isWhitespace).reverse).filter (fun c => !c.isWhitespace)).length =
        (chunk.toList.filter (fun c => !c.isWhitespace)).length := by
      simp [List.filter_reverse, key]
    have hle := List.length_filter_le (fun c => !c.isWhitespace)
        (((chunk.toList.dropWhile Char.isWhitespace).reverse.dropWhile
          Char.isWhitespace).reverse)
    unfold trimmedCharCount
    unfold nonWhitespaceCount at h10
    omega

/-- Witness for `wait_clearing`: a waiting session and the 11-character
chunk `"changed 4 +"` (trimmed length 11 ≥ 10) is cleared; the chunk
`"ok"` (trimmed length 2 < 10) keeps the state. -/
theorem wait_clearing_witness :
    (process_pty_output_wait
        ⟨some ⟨WaitType.awaiting_response, "continue?", 0, ApprovalModel.none, 7⟩,
          some 7⟩ "changed 4 +" Option.none 1).broadcast_waiting_cleared = true ∧
    (process_pty_output_wait
        ⟨some ⟨WaitType.awaiting_response, "continue?", 0, ApprovalModel.none, 7⟩,
          some 7⟩ "ok" Option.none 1).session =
      ⟨some ⟨WaitType.awaiting_response, "continue?", 0, ApprovalModel.none, 7⟩,
        some 7⟩ := by
  constructor
  · exact ((wait_clearing
      ⟨some ⟨WaitType.awaiting_response, "continue?", 0, ApprovalModel.none, 7⟩,
        some 7⟩ "changed 4 +" 1).1 (by decide) (by decide)).2
  · exact ((wait_clearing
      ⟨some ⟨WaitType.awaiting_response, "continue?", 0, ApprovalModel.none, 7⟩,
        some 7⟩ "ok" 1).2.1 (by decide)).1

/-! ## Reference counting (`daemon.rs`: `process_client_msg` `Unsubscribe`
and `UnwatchDirectory` arms, `cleanup_client_state`)

`HashMap`s are modelled as functions into `Option`, `HashSet`s as
duplicate-free lists (all the claims are order-insensitive), socket
addresses as naturals, and the `usize` counts as `Int` so that "never
goes below zero" is a real statement about the guarded decrement
`if *count > 0 { *count -= 1 }`. -/

/-- A socket address (`SocketAddr`), abstracted. -/
abbrev Addr := Nat

/-- Pointwise map update (`HashMap::insert` / `remove`). -/
def updf {α β : Type} [DecidableEq α] (f : α → Option β) (k : α) (v : Option β) :
    α → Option β :=
  fun x => if x = k then v else f x

/-- The refcounting slice of `DaemonState`, plus the set of paths the
`FileWatcher` currently watches at OS level (mutated via
`watcher().watch/unwatch`). -/
structure RefState where
  mobile_views : Addr → Option (List String)
  session_view_counts : String → Option Int
  file_watch_subscriptions : Addr → Option (List String)
  file_watch_counts : String → Option Int
  os_watches : List String

/-- The guarded decrement pattern that appears verbatim in the
`Unsubscribe` arm, the `UnwatchDirectory` arm and both loops of
`cleanup_client_state`: `if let Some(count) = map.get_mut(&key)
{ if *count > 0 { *count -= 1; } if *count == 0 { map.remove(&key);
<queue key> } }`. Returns the updated count map and the keys whose count
reached zero (queued for `restore_pty_size` resp. `watcher().unwatch`). -/
def cleanup_count_step (acc : (String → Option Int) × List String) (key : String) :
    (String → Option Int) × List String :=
  match acc.1 key with
  | none => acc
  | some c =>
      let c' : Int := if c > 0 then c - 1 else c
      if c' = 0 then (updf acc.1 key none, acc.2 ++ [key])
      else (updf acc.1 key (some c'), acc.2)

/-- `ClientMessage::Unsubscribe` arm: `entry.remove(&session_id)` guards
the (guarded) decrement; returns the new state and the sessions for which
`restore_pty_size` was invoked (the count reached zero). -/
def unsubscribe (st : RefState) (addr : Addr) (session_id : String) :
    RefState × List String :=
  match st.mobile_views addr with
  | none => (st, [])
  | some entry =>
      if session_id ∈ entry then
        let res := cleanup_count_step (st.session_view_counts, []) session_id
        ({ st with
            mobile_views := updf st.mobile_views addr (some (entry.erase session_id)),
            session_view_counts := res.1 }, res.2)
      else (st, [])

/-- `ClientMessage::UnwatchDirectory` arm (after rate limit and path
normalisation): `entry(addr).or_default()` materialises an empty set,
`entry.remove(&watch_path)` guards everything else; `watcher().unwatch`
runs only when the count reached zero. -/
def unwatch_directory (st : RefState) (addr : Addr) (watch_path : String) : RefState :=
  let entry := (st.file_watch_subscriptions addr).getD []
  if watch_path ∈ entry then
    let res := cleanup_count_step (st.file_watch_counts, []) watch_path
    { st with
        file_watch_subscriptions :=
          updf st.file_watch_subscriptions addr (some (entry.erase watch_path)),
        file_watch_counts := res.1,
        os_watches := res.2.foldl (fun l p => l.erase p) st.os_watches }
  else
    { st with
        file_watch_subscriptions := updf st.file_watch_subscriptions addr (some entry) }

/-- `cleanup_client_state`: removes the peer's view and watch sets,
decrements every count it held (guarded), unwatches paths whose count
reached zero, and returns the sessions to restore. -/
def cleanup_client_state (st : RefState) (addr : Addr) : RefState × List String :=
  let viewsRes :=
    match st.mobile_views addr with
    | none => (st.session_view_counts, ([] : List String))
    | some sids => sids.foldl cleanup_count_step (st.session_view_counts, [])
  let watchRes :=
    match st.file_watch_subscriptions addr with
    | none => (st.file_watch_counts, ([] : List String))
    | some paths => paths.foldl cleanup_count_step (st.file_watch_counts, [])
  ({ mobile_views := updf st.mobile_views addr none,
     session_view_counts := viewsRes.1,
     file_watch_subscriptions := updf st.file_watch_subscriptions addr none,
     file_watch_counts := watchRes.1,
     os_watches := watchRes.2.foldl (fun l p => l.erase p) st.os_watches },
   viewsRes.2)

/-- Nonnegativity of every stored count. -/
def CountsNonneg (f : String → Option Int) : Prop :=
  ∀ k c, f k = some c → 0 ≤ c

theorem cleanup_count_step_nonneg (acc : (String → Option Int) × List String)
    (key : String) (h : CountsNonneg acc.1) :
    CountsNonneg (cleanup_count_step acc key).1 := by
  intro k c hk
  unfold cleanup_count_step updf at hk
  split at hk
  next => exact h k c hk
  next c0 hacc =>
    have h0 := h key c0 hacc
    dsimp only at hk
    split at hk <;> split at hk <;>
      by_cases hkk : k = key <;> simp [hkk] at hk <;>
        first
          | exact h k c hk
          | omega

theorem foldl_cleanup_nonneg (keys : List String)
    (acc : (String → Option Int) × List String) (h : CountsNonneg acc.1) :
    CountsNonneg (keys.foldl cleanup_count_step acc).1 := by
  induction keys generalizing acc with
  | nil => exact h
  | cons k rest ih =>
      exact ih _ (cleanup_count_step_nonneg acc k h)

theorem unsubscribe_counts_nonneg (st : RefState) (addr : Addr) (sid : String)
    (h : CountsNonneg st.session_view_counts) :
    CountsNonneg (unsubscribe st addr sid).1.session_view_counts := by
  cases hv : st.mobile_views addr with
  | none => simpa [unsubscribe, hv] using h
  | some entry =>
      by_cases hmem : sid ∈ entry
      · simpa [unsubscribe, hv, hmem] using
          cleanup_count_step_nonneg (st.session_view_counts, []) sid h
      · simpa [unsubscribe, hv, hmem] using h

theorem unwatch_counts_nonneg (st : RefState) (addr : Addr) (path : String)
    (h : CountsNonneg st.file_watch_counts) :
    CountsNonneg (unwatch_directory st addr path).file_watch_counts := by
  by_cases hmem : path ∈ (st.file_watch_subscriptions addr).getD []
  · simpa [unwatch_directory, hmem] using
      cleanup_count_step_nonneg (st.file_watch_counts, []) path h
  · simpa [unwatch_directory, hmem] using h

theorem cleanup_counts_nonneg (st : RefState) (addr : Addr)
    (hv : CountsNonneg st.session_view_counts)
    (hw : CountsNonneg st.file_watch_counts) :
    CountsNonneg (cleanup_client_state st addr).1.session_view_counts ∧
    CountsNonneg (cleanup_client_state st addr).1.file_watch_counts := by
  constructor
  · cases hm : st.mobile_views addr with
    | none => simpa [cleanup_client_state, hm] using hv
    | some sids =>
        simpa [cleanup_client_state, hm] using foldl_cleanup_nonneg sids _ hv
  · cases hs : st.file_watch_subscriptions addr with
    | none => simpa [cleanup_client_state, hs] using hw
    | some paths =>
        simpa [cleanup_client_state, hs] using foldl_cleanup_nonneg paths _ hw

/-- **C10** — No refcount underflow and no-op removal: an `Unsubscribe`
for a session the peer is not subscribed to leaves the whole state
unchanged; an `UnwatchDirectory` for a path the peer does not watch
leaves every count and the OS-level watch set unchanged; disconnect
cleanup for a peer that held no keys changes no count, no OS watch, and
restores nothing; and every decrement is guarded, so nonnegativity of all
counts is preserved by all three operations. -/
theorem refcount_safety (st : RefState) (addr : Addr) (sid path : String) :
    ((∀ e, st.mobile_views addr = some e → sid ∉ e) →
        unsubscribe st addr sid = (st, [])) ∧
    ((∀ e, st.file_watch_subscriptions addr = some e → path ∉ e) →
        (unwatch_directory st addr path).session_view_counts = st.session_view_counts ∧
        (unwatch_directory st addr path).file_watch_counts = st.file_watch_counts ∧
        (unwatch_directory st addr path).os_watches = st.os_watches ∧
        (unwatch_directory st addr path).mobile_views = st.mobile_views) ∧
    (st.mobile_views addr = none → st.file_watch_subscriptions addr = none →
        (cleanup_client_state st addr).1.session_view_counts = st.session_view_counts ∧
        (cleanup_client_state st addr).1.file_watch_counts = st.file_watch_counts ∧
        (cleanup_client_state st addr).1.os_watches = st.os_watches ∧
        (cleanup_client_state st addr).2 = []) ∧
    (CountsNonneg st.session_view_counts → CountsNonneg st.file_watch_counts →
        CountsNonneg (unsubscribe st addr sid).1.session_view_counts ∧
        CountsNonneg (unwatch_directory st addr path).file_watch_counts ∧
        CountsNonneg (cleanup_client_state st addr).1.session_view_counts ∧
        CountsNonneg (cleanup_client_state st addr).1.file_watch_counts) := by
  refine ⟨?_, ?_, ?_, ?_⟩
  · intro hnot
    cases hv : st.mobile_views addr with
    | none => simp [unsubscribe, hv]
    | some entry => simp [unsubscribe, hv, hnot entry hv]
  · intro hnot
    cases hs : st.file_watch_subscriptions addr with
    | none => simp [unwatch_directory, hs]
    | some entry => simp [unwatch_directory, hs, hnot entry hs]
  · intro hmv hws
    simp [cleanup_client_state, hmv, hws]
  · intro hv hw
    exact ⟨unsubscribe_counts_nonneg st addr sid hv,
           unwatch_counts_nonneg st addr path hw,
           (cleanup_counts_nonneg st addr hv hw).1,
           (cleanup_counts_nonneg st addr hv hw).2⟩

/-- Witness for `refcount_safety`: empty daemon state, a peer that holds
nothing. -/
theorem refcount_safety_witness :
    unsubscribe ⟨fun _ => Option.none, fun _ => Option.none, fun _ => Option.none,
        fun _ => Option.none, []⟩ 0 "S1" =
      (⟨fun _ => Option.none, fun _ => Option.none, fun _ => Option.none,
        fun _ => Option.none, []⟩, []) ∧
    (cleanup_client_state ⟨fun _ => Option.none, fun _ => Option.none,
        fun _ => Option.none, fun _ => Option.none, []⟩ 0).2 = [] :=
  ⟨(refcount_safety ⟨fun _ => Option.none, fun _ => Option.none, fun _ => Option.none,
      fun _ => Option.none, []⟩ 0 "S1" "/p").1 (fun _ h => nomatch h),
   ((refcount_safety ⟨fun _ => Option.none, fun _ => Option.none, fun _ => Option.none,
      fun _ => Option.none, []⟩ 0 "S1" "/p").2.2.1 rfl rfl).2.2.2⟩

/-! ## PathValidator (`src/cli/src/filesystem/security.rs`)

Paths are modelled at `std::path::Component` granularity; the OS
(`Path::canonicalize`, `std::fs::symlink_metadata`) is an explicit oracle.
The `path_jail` crate is not under `src/`; per spec §4.6/§8 its
`Jail::new` canonicalises the root and `Jail::contains` is containment by
lexical prefix under the canonicalised root, and it is modelled as such.
Error payloads carry the structured path instead of its `display()`
rendering. -/

/-- `std::path::Component` (Unix: `RootDir`, `CurDir`, `ParentDir`,
`Normal`). -/
inductive PathComponent where
  | rootDir
  | curDir
  | parentDir
  | normal (name : String)
deriving DecidableEq, Repr

/-- A parsed `std::path::Path`: its component list. -/
abbrev RustPath := List PathComponent

/-- A canonical absolute path: the list of `Normal` component names below
the root. -/
abbrev CanonPath := List String

/-- `Path::is_absolute` (Unix: begins with the root). -/
def path_is_absolute (p : RustPath) : Bool :=
  match p with
  | PathComponent.rootDir :: _ => true
  | _ => false

/-- `contains_parent_dir` (`security.rs`):
`path.components().any(|c| matches!(c, Component::ParentDir))`. -/
def contains_parent_dir (p : RustPath) : Bool :=
  p.any (fun c => c == PathComponent.parentDir)

/-- The OS as seen by the validator: `canonicalize` (`None` = the OS call
failed) and `symlink_metadata(..).file_type().is_symlink()` on a prefix
(the code maps an `Err` from `symlink_metadata` to `false`, so a plain
`Bool` oracle is faithful). -/
structure FsOracle where
  canonicalize : RustPath → Option CanonPath
  is_symlink_at : CanonPath → Bool

/-- `Path::display().to_string()`, approximated componentwise (the
rendering itself is not claim-relevant). -/
def renderComponent : PathComponent → String
  | PathComponent.rootDir => "/"
  | PathComponent.curDir => "."
  | PathComponent.parentDir => ".."
  | PathComponent.normal s => s

def renderRustPath (p : RustPath) : String :=
  String.intercalate "/" (p.map renderComponent)

def renderCanonPath (c : CanonPath) : String :=
  "/" ++ String.intercalate "/" c

/-- `FileSystemError` (`protocol.rs`), restricted to the variants the
validator and the embedded operations produce. -/
inductive FsError where
  | notFound (path : String)
  | permissionDenied (path : String) (reason : String)
  | pathTraversal (attempted_path : String)
  | notADirectory (path : String)
  | notAFile (path : String)
  | alreadyExists (path : String)
  | notEmpty (path : String)
  | fileTooLarge (path : String) (size max_size : Nat)
  | ioError (message : String)
  | invalidEncoding (path : String)
  | rateLimited (retry_after_ms : Nat)
deriving DecidableEq, Repr

/-- Modelled from the spec: a `path_jail::Jail` (crate not under `src/`)
holds the canonicalised root; `Jail::new` fails when canonicalisation
does. -/
structure Jail where
  root : CanonPath
deriving DecidableEq, Repr

/-- Modelled from the spec: `Jail::new(root)`, canonicalising the root. -/
def Jail.new (o : FsOracle) (root : RustPath) : Option Jail :=
  (o.canonicalize root).map Jail.mk

/-- Modelled from the spec: `jail.contains(path).is_ok()` — containment by
lexical prefix under the canonicalised root (spec §4.6). -/
def Jail.contains_path (j : Jail) (p : CanonPath) : Bool :=
  j.root.isPrefixOf p

/-- The validator's configuration slice (`FileSystemConfig`): allowed
roots, the denied-pattern matcher (`glob_match` over `denied_patterns`,
kept abstract as a predicate on the canonical path) and
`follow_symlinks`. -/
structure ValidatorConfig where
  allowed_roots : List RustPath
  denied_match : CanonPath → Bool
  follow_symlinks : Bool

/-- `PathValidator::new`: `jails = allowed_roots.iter().filter_map(|root|
Jail::new(root).ok()).collect()`. -/
def validator_jails (o : FsOracle) (cfg : ValidatorConfig) : List Jail :=
  cfg.allowed_roots.filterMap (Jail.new o)

/-- `PathValidator::ensure_allowed`:
`self.jails.iter().any(|jail| jail.contains(path).is_ok())`. -/
def ensure_allowed (o : FsOracle) (cfg : ValidatorConfig) (p : CanonPath) : Bool :=
  (validator_jails o cfg).any (fun j => j.contains_path p)

/-- The symlink memo cache (`symlink_cache`), a map from walked prefixes
to the cached `is_symlink` answer. -/
abbrev SymlinkCache := CanonPath → Option Bool

/-- The loop of `PathValidator::contains_symlink`: push each component
onto `current`, consult the cache, otherwise ask `symlink_metadata` and
insert the answer; stop with `true` at the first symlink. Returns the
verdict and the updated cache. -/
def contains_symlink_walk (o : FsOracle) (cache : SymlinkCache)
    (current : CanonPath) : List String → Bool × SymlinkCache
  | [] => (false, cache)
  | comp :: rest =>
      let cur := current ++ [comp]
      match cache cur with
      | some true => (true, cache)
      | some false => contains_symlink_walk o cache cur rest
      | none =>
          let is := o.is_symlink_at cur
          let cache' : SymlinkCache := fun q => if q = cur then some is else cache q
          if is then (true, cache')
          else contains_symlink_walk o cache' cur rest

/-- `PathValidator::contains_symlink(&canonical)`. -/
def contains_symlink (o : FsOracle) (cache : SymlinkCache) (p : CanonPath) :
    Bool × SymlinkCache :=
  contains_symlink_walk o cache [] p

/-- The non-empty prefixes of a canonical path, in walk order. -/
def canonPrefixes (p : CanonPath) : List CanonPath :=
  (List.range p.length).map (fun i => p.take (i + 1))

/-- Whether some walked prefix of `p` is a symlink according to the
metadata oracle (the cache-free meaning of the walk). -/
def anyPrefixSymlink (o : FsOracle) (p : CanonPath) : Bool :=
  (canonPrefixes p).any o.is_symlink_at

/-- Cache consistency: every cached answer agrees with the current
metadata oracle (what "memoised across calls" preserves). -/
def CacheConsistent (o : FsOracle) (cache : SymlinkCache) : Prop :=
  ∀ q b, cache q = some b → o.is_symlink_at q = b

/-- `PathValidator::validate_existing` (`security.rs` lines 32–58):
traversal check, canonicalise, `ensure_allowed`, `ensure_not_denied`,
symlink check, in source order. Returns the canonical path. -/
def validate_existing (o : FsOracle) (cfg : ValidatorConfig) (cache : SymlinkCache)
    (p : RustPath) : Except FsError CanonPath :=
  if !path_is_absolute p || contains_parent_dir p then
    Except.error (FsError.pathTraversal (renderRustPath p))
  else
    match o.canonicalize p with
    | none => Except.error (FsError.ioError "canonicalize failed")
    | some canonical =>
        if !ensure_allowed o cfg canonical then
          Except.error (FsError.permissionDenied (renderCanonPath canonical)
            "Path is outside allowed directories")
        else if cfg.denied_match canonical then
          Except.error (FsError.permissionDenied (renderCanonPath canonical)
            "Path matches denied pattern")
        else if !cfg.follow_symlinks && (contains_symlink o cache canonical).1 then
          Except.error (FsError.permissionDenied (renderCanonPath canonical)
            "Symlinked paths are not allowed")
        else Except.ok canonical

/-- The cache-free meaning of the symlink walk: push each component and
ask the metadata oracle; stop at the first symlink. -/
def walkSymlinkPure (o : FsOracle) (current : CanonPath) : List String → Bool
  | [] => false
  | comp :: rest =>
      if o.is_symlink_at (current ++ [comp]) then true
      else walkSymlinkPure o (current ++ [comp]) rest

theorem contains_symlink_walk_spec (o : FsOracle) (l : List String) :
    ∀ (cache : SymlinkCache) (current : CanonPath), CacheConsistent o cache →
      (contains_symlink_walk o cache current l).1 = walkSymlinkPure o current l ∧
      CacheConsistent o (contains_symlink_walk o cache current l).2 := by
  induction l with
  | nil => exact fun cache current h => ⟨rfl, h⟩
  | cons comp rest ih =>
      intro cache current h
      rw [contains_symlink_walk, walkSymlinkPure]
      cases hc : cache (current ++ [comp]) with
      | some b =>
          have hb := h _ _ hc
          cases b with
          | true => simp [hc, hb, h]
          | false =>
              have hrec := ih cache (current ++ [comp]) h
              simp [hc, hb, hrec.1, hrec.2]
      | none =>
          have h' : CacheConsistent o
              (fun q => if q = current ++ [comp]
                then some (o.is_symlink_at (current ++ [comp])) else cache q) := by
            intro q b hq
            dsimp only at hq
            by_cases hqq : q = current ++ [comp]
            · subst hqq
              rw [if_pos rfl] at hq
              exact Option.some_inj.mp hq
            · rw [if_neg hqq] at hq
              exact h q b hq
          by_cases hs : o.is_symlink_at (current ++ [comp]) = true
          · simp only [hc, hs]
            exact ⟨by simp [hs], by simpa [hs] using h'⟩
          · have hs' : o.is_symlink_at (current ++ [comp]) = false := by
              simpa using hs
            have hrec := ih _ (current ++ [comp]) h'
            simp only [hc, hs']
            constructor
            · simpa [hs'] using hrec.1
            · simpa [hs'] using hrec.2

theorem walkSymlinkPure_eq_any (o : FsOracle) (l : List String) :
    ∀ current : CanonPath,
      walkSymlinkPure o current l =
        ((List.range l.length).map (fun i => current ++ l.take (i + 1))).any
          o.is_symlink_at := by
  induction l with
  | nil => intro current; simp [walkSymlinkPure]
  | cons comp rest ih =>
      intro current
      rw [walkSymlinkPure]
      rw [List.length_cons, List.range_succ_eq_map]
      rw [List.map_cons, List.any_cons, List.map_map]
      have hfun : ((fun i => current ++ (comp :: rest).take (i + 1)) ∘ Nat.succ) =
          (fun i => (current ++ [comp]) ++ rest.take (i + 1)) := by
        funext i
        simp [Function.comp, List.take_succ_cons]
      rw [hfun, ← ih (current ++ [comp])]
      have h0 : current ++ (comp :: rest).take (0 + 1) = current ++ [comp] := by simp
      rw [h0]
      by_cases hs : o.is_symlink_at (current ++ [comp]) = true
      · simp [hs]
      · have hs' : o.is_symlink_at (current ++ [comp]) = false := by simpa using hs
        simp [hs']

theorem contains_symlink_spec (o : FsOracle) (cache : SymlinkCache) (p : CanonPath)
    (h : CacheConsistent o cache) :
    (contains_symlink o cache p).1 = anyPrefixSymlink o p ∧
    CacheConsistent o (contains_symlink o cache p).2 := by
  have hw := contains_symlink_walk_spec o p cache [] h
  have hp : walkSymlinkPure o [] p = anyPrefixSymlink o p := by
    rw [walkSymlinkPure_eq_any o p []]
    simp [anyPrefixSymlink, canonPrefixes]
  exact ⟨hw.1.trans hp, hw.2⟩

/-- **C1** — Containment: whenever `validate_existing(p)` returns `Ok(c)`,
`c` is the canonical form of `p` and some configured allowed root
canonicalises to a lexical prefix of `c`; and every non-absolute path and
every path containing a `..` component yields the `path_traversal`
error. The `path_jail` containment is modelled from the spec (lexical
prefix under the canonicalised root). -/
theorem path_validator_containment (o : FsOracle) (cfg : ValidatorConfig)
    (cache : SymlinkCache) (p : RustPath) :
    (∀ c, validate_existing o cfg cache p = Except.ok c →
        o.canonicalize p = some c ∧
        ∃ root ∈ cfg.allowed_roots, ∃ r,
          o.canonicalize root = some r ∧ r.isPrefixOf c = true) ∧
    (path_is_absolute p = false ∨ contains_parent_dir p = true →
        validate_existing o cfg cache p =
          Except.error (FsError.pathTraversal (renderRustPath p))) := by
  constructor
  · intro c hok
    unfold validate_existing at hok
    split at hok
    · exact absurd hok (by simp)
    · rename_i hguard
      split at hok
      · exact absurd hok (by simp)
      · rename_i canonical hcanon
        split at hok
        · exact absurd hok (by simp)
        · rename_i hallowed
          split at hok
          · exact absurd hok (by simp)
          · split at hok
            · exact absurd hok (by simp)
            · have hc : canonical = c := by
                injection hok
              subst hc
              refine ⟨hcanon, ?_⟩
              have hall : ensure_allowed o cfg canonical = true := by
                simpa using hallowed
              rw [ensure_allowed, List.any_eq_true] at hall
              obtain ⟨j, hj, hcont⟩ := hall
              rw [validator_jails, List.mem_filterMap] at hj
              obtain ⟨root, hroot, hnew⟩ := hj
              rw [Jail.new, Option.map_eq_some'] at hnew
              obtain ⟨r, hr, hjr⟩ := hnew
              exact ⟨root, hroot, r, hr, by
                rw [← hjr] at hcont
                simpa [Jail.contains_path] using hcont⟩
  · intro hbad
    unfold validate_existing
    have hguard : (!path_is_absolute p || contains_parent_dir p) = true := by
      rcases hbad with h | h <;> simp [h]
    rw [if_pos hguard]

instance {e a : Type} [DecidableEq e] [DecidableEq a] : DecidableEq (Except e a) :=
  fun x y =>
    match x, y with
    | Except.ok u, Except.ok v =>
        if h : u = v then isTrue (by rw [h])
        else isFalse (by intro hc; cases hc; exact h rfl)
    | Except.error u, Except.error v =>
        if h : u = v then isTrue (by rw [h])
        else isFalse (by intro hc; cases hc; exact h rfl)
    | Except.ok _, Except.error _ => isFalse (fun hc => nomatch hc)
    | Except.error _, Except.ok _ => isFalse (fun hc => nomatch hc)

/-- Concrete oracle for the validator witnesses: the root `/` and the file
`/a` exist; `/ln` is a symlink. -/
def oracle_demo : FsOracle where
  canonicalize := fun p =>
    if p = [PathComponent.rootDir] then some []
    else if p = [PathComponent.rootDir, PathComponent.normal "a"] then some ["a"]
    else if p = [PathComponent.rootDir, PathComponent.normal "ln",
        PathComponent.normal "f"] then some ["ln", "f"]
    else none
  is_symlink_at := fun q => q = ["ln"]

/-- Concrete configuration for the validator witnesses: one allowed root
`/`, nothing denied, symlinks not followed. -/
def cfg_demo : ValidatorConfig where
  allowed_roots := [[PathComponent.rootDir]]
  denied_match := fun _ => false
  follow_symlinks := false

/-- Witness for `path_validator_containment`: `/a` validates to `["a"]`
with the canonicalised root `[]` as lexical prefix, and the relative path
`["a"]`-with-`..` is rejected as `path_traversal`. -/
theorem path_validator_containment_witness :
    (oracle_demo.canonicalize
        [PathComponent.rootDir, PathComponent.normal "a"] = some ["a"] ∧
      ∃ root ∈ cfg_demo.allowed_roots, ∃ r,
        oracle_demo.canonicalize root = some r ∧ r.isPrefixOf ["a"] = true) ∧
    validate_existing oracle_demo cfg_demo (fun _ => Option.none)
        [PathComponent.parentDir, PathComponent.normal "x"] =
      Except.error (FsError.pathTraversal (renderRustPath
        [PathComponent.parentDir, PathComponent.normal "x"])) :=
  ⟨(path_validator_containment oracle_demo cfg_demo (fun _ => Option.none)
      [PathComponent.rootDir, PathComponent.normal "a"]).1 ["a"] (by decide),
   (path_validator_containment oracle_demo cfg_demo (fun _ => Option.none)
      [PathComponent.parentDir, PathComponent.normal "x"]).2 (Or.inl (by decide))⟩

/-- **C7** — Symlink rejection: with `follow_symlinks = false`, if the
canonical form of an absolute, `..`-free path has a prefix whose link
metadata reports a symlink, `validate_existing` returns
`permission_denied`; and the walk itself (memoised across calls through
the cache) computes exactly "some walked prefix is a symlink" and keeps
the cache consistent with the metadata oracle. -/
theorem symlink_rejection (o : FsOracle) (cfg : ValidatorConfig)
    (cache : SymlinkCache) (p : RustPath) (c : CanonPath)
    (hfollow : cfg.follow_symlinks = false)
    (hcons : CacheConsistent o cache)
    (habs : path_is_absolute p = true)
    (hdot : contains_parent_dir p = false)
    (hcanon : o.canonicalize p = some c)
    (hsym : anyPrefixSymlink o c = true) :
    (∃ cp reason, validate_existing o cfg cache p =
        Except.error (FsError.permissionDenied cp reason)) ∧
    (contains_symlink o cache c).1 = anyPrefixSymlink o c ∧
    CacheConsistent o (contains_symlink o cache c).2 := by
  have hspec := contains_symlink_spec o cache c hcons
  refine ⟨?_, hspec.1, hspec.2⟩
  unfold validate_existing
  have hguard : (!path_is_absolute p || contains_parent_dir p) = false := by
    simp [habs, hdot]
  rw [if_neg (by simp [hguard])]
  rw [hcanon]
  by_cases hall : ensure_allowed o cfg c = true
  · simp only [hall, Bool.not_true, Bool.false_eq_true, if_false]
    by_cases hden : cfg.denied_match c = true
    · simp only [hden, if_true]
      exact ⟨renderCanonPath c, "Path matches denied pattern", rfl⟩
    · have hden' : cfg.denied_match c = false := by simpa using hden
      have hwalk : (contains_symlink o cache c).1 = true := hspec.1.trans hsym
      simp only [hden', if_false, hfollow, hwalk, Bool.not_false, Bool.true_and,
        if_true]
      exact ⟨renderCanonPath c, "Symlinked paths are not allowed", rfl⟩
  · have hall' : ensure_allowed o cfg c = false := by simpa using hall
    simp only [hall', Bool.not_false, if_true]
    exact ⟨renderCanonPath c, "Path is outside allowed directories", rfl⟩

/-- Witness for `symlink_rejection`: validating `/ln/f` where `/ln` is a
symlink is rejected with `permission_denied`. -/
theorem symlink_rejection_witness :
    ∃ cp reason,
      validate_existing oracle_demo cfg_demo (fun _ => Option.none)
          [PathComponent.rootDir, PathComponent.normal "ln",
            PathComponent.normal "f"] =
        Except.error (FsError.permissionDenied cp reason) :=
  (symlink_rejection oracle_demo cfg_demo (fun _ => Option.none)
    [PathComponent.rootDir, PathComponent.normal "ln", PathComponent.normal "f"]
    ["ln", "f"] rfl (fun _ _ h => nomatch h) (by decide) (by decide) (by decide)
    (by decide)).1

/-! ## Atomic write (`operations.rs`, `FileOperations::write_file`, lines
283–384, and the byte core of `read_file`, lines 96–194)

The file system is a map from (resolved) path strings to file contents;
each fallible OS call of `write_file` gets a failure flag, `fs::rename`
on success moves the contents, `fs::copy` duplicates them, a failed call
leaves the map unchanged (the `let _ = fs::remove_file(..)` calls ignore
their result, so they also get flags). Validation (`resolve_new_path`)
and payload decoding happen upstream; `is_writable` and the
`path.exists() && path.is_dir()` test enter as booleans, the decoded
payload as bytes. -/

/-- File contents by path. -/
abbrev FsMap := String → Option (List Nat)

/-- Point update of the file map. -/
def fsSet (fs : FsMap) (p : String) (v : Option (List Nat)) : FsMap :=
  fun q => if q = p then v else fs q

/-- Which fallible filesystem calls of `write_file` fail in this run. -/
structure FailSpec where
  write_temp : Bool
  rename_dest_to_bak : Bool
  rename_temp_to_dest : Bool
  restore_rename : Bool
  restore_copy : Bool
  remove_bak_pre : Bool
  remove_temp_on_bak_fail : Bool
  remove_temp_on_dest_fail : Bool
  remove_bak_final : Bool
deriving DecidableEq, Repr

/-- The tail of `write_file` from `fs::rename(&temp_path, &path)` on:
on failure restore the backup (rename, then copy), delete the temp,
surface an `IoError`; on success delete the backup and return `Ok`. -/
def write_file_finish (fs : FsMap) (path temp : String) (backup : Option String)
    (f : FailSpec) : Except FsError Unit × FsMap :=
  if f.rename_temp_to_dest then
    let fs1 :=
      match backup with
      | some bak =>
          if f.restore_rename then
            if f.restore_copy then fs
            else fsSet fs path (fs bak)
          else fsSet (fsSet fs path (fs bak)) bak none
      | none => fs
    let fs2 := if f.remove_temp_on_dest_fail then fs1 else fsSet fs1 temp none
    (Except.error (FsError.ioError "Failed to replace file"), fs2)
  else
    let fs1 := fsSet (fsSet fs path (fs temp)) temp none
    match backup with
    | some bak =>
        (Except.ok (), if f.remove_bak_final then fs1 else fsSet fs1 bak none)
    | none => (Except.ok (), fs1)

/-- `FileOperations::write_file` after `resolve_new_path`: writability and
directory checks, size bound, temp write, backup rename, final rename
with rollback. `temp` is the `sibling.tmp-<uuid>` name, `bak` the
`sibling.bak` name. -/
def write_file (max_write_size : Nat) (is_writable dest_is_dir : Bool)
    (fs : FsMap) (path temp bak : String) (bytes : List Nat) (f : FailSpec) :
    Except FsError Unit × FsMap :=
  if !is_writable then
    (Except.error (FsError.permissionDenied path "Path is read-only"), fs)
  else if dest_is_dir then
    (Except.error (FsError.notAFile path), fs)
  else if bytes.length > max_write_size then
    (Except.error (FsError.fileTooLarge path bytes.length max_write_size), fs)
  else if f.write_temp then
    (Except.error (FsError.ioError "write temp failed"), fs)
  else
    let fs1 := fsSet fs temp (some bytes)
    if (fs1 path).isSome then
      let fs2 := if f.remove_bak_pre then fs1 else fsSet fs1 bak none
      if f.rename_dest_to_bak then
        let fs3 := if f.remove_temp_on_bak_fail then fs2 else fsSet fs2 temp none
        (Except.error (FsError.ioError "Failed to backup existing file"), fs3)
      else
        let fs3 := fsSet (fsSet fs2 bak (fs2 path)) path none
        write_file_finish fs3 path temp (some bak) f
    else
      write_file_finish fs1 path temp none f

/-- The byte core of `FileOperations::read_file` with `offset = None`,
`length = None`: existence, `max_read_size` bound, then the file's bytes
(MIME sniffing and text decoding act on these bytes downstream). -/
def read_file_bytes (max_read_size : Nat) (fs : FsMap) (path : String) :
    Except FsError (List Nat) :=
  match fs path with
  | none => Except.error (FsError.notFound path)
  | some data =>
      if data.length > max_read_size then
        Except.error (FsError.fileTooLarge path data.length max_read_size)
      else Except.ok data

theorem fsSet_same (fs : FsMap) (p : String) (v : Option (List Nat)) :
    fsSet fs p v p = v := by
  simp [fsSet]

theorem fsSet_other (fs : FsMap) (p : String) (v : Option (List Nat)) (q : String)
    (h : q ≠ p) : fsSet fs p v q = fs q := by
  simp [fsSet, h]

/-- After a successful final rename, the destination holds what the temp
file held. -/
theorem write_file_finish_ok (fs : FsMap) (path temp : String)
    (backup : Option String) (f : FailSpec) (fs' : FsMap)
    (hpt : temp ≠ path)
    (hbp : ∀ b, backup = some b → b ≠ path)
    (h : write_file_finish fs path temp backup f = (Except.ok (), fs')) :
    fs' path = fs temp := by
  unfold write_file_finish at h
  split at h
  · simp at h
  · cases backup with
    | none =>
        dsimp only at h
        injection h with h1 h2
        subst h2
        rw [fsSet_other _ _ _ _ (Ne.symm hpt), fsSet_same]
    | some bak =>
        have hbp' : bak ≠ path := hbp bak rfl
        dsimp only at h
        injection h with h1 h2
        subst h2
        by_cases hrm : f.remove_bak_final
        · rw [if_pos hrm]
          rw [fsSet_other _ _ _ _ (Ne.symm hpt), fsSet_same]
        · rw [if_neg hrm]
          rw [fsSet_other _ _ _ _ (Ne.symm hbp'),
            fsSet_other _ _ _ _ (Ne.symm hpt), fsSet_same]

/-- **C2** — Atomic write: if `write_file` returns `Ok` then `read_file`
on the destination returns exactly the written bytes (the decoded
payload); and if the final rename onto the destination fails after the
existing destination was renamed to its `.bak` sibling, then either the
destination is restored to its prior content, or an `io_error` is
returned and the `.bak` sibling still holds the prior content. The
sibling names `.tmp-<uuid>` and `.bak` are distinct from the destination
and from each other. -/
theorem write_file_atomic (mw mr : Nat) (iw dd : Bool) (fs : FsMap)
    (path temp bak : String) (bytes : List Nat) (f : FailSpec) (prior : List Nat)
    (hpt : temp ≠ path) (hpb : bak ≠ path) (htb : temp ≠ bak) (hmax : mw ≤ mr) :
    (∀ fs', write_file mw iw dd fs path temp bak bytes f = (Except.ok (), fs') →
        read_file_bytes mr fs' path = Except.ok bytes) ∧
    (fs path = some prior → f.rename_dest_to_bak = false →
      f.rename_temp_to_dest = true → f.write_temp = false →
      ¬ bytes.length > mw →
      ((write_file mw true false fs path temp bak bytes f).2 path = some prior ∨
        ((∃ msg, (write_file mw true false fs path temp bak bytes f).1 =
            Except.error (FsError.ioError msg)) ∧
          (write_file mw true false fs path temp bak bytes f).2 bak = some prior))) := by
  constructor
  · intro fs' hok
    unfold write_file at hok
    split at hok
    next => simp at hok
    next hiw =>
      split at hok
      next => simp at hok
      next hdd =>
        split at hok
        next => simp at hok
        next hsize =>
          split at hok
          next => simp at hok
          next hwt =>
            have hmr : ¬ bytes.length > mr := by omega
            dsimp only at hok
            split at hok
            next hex =>
              split at hok
              next => simp at hok
              next hren =>
                have hp := write_file_finish_ok _ _ _ _ _ _ hpt
                  (fun b hb => by cases hb; exact hpb) hok
                have h3 : fs' path = some bytes := by
                  rw [hp]
                  by_cases hrb : f.remove_bak_pre
                  · simp [fsSet, hrb, hpt, htb]
                  · simp [fsSet, hrb, hpt, htb]
                simp [read_file_bytes, h3, hmr]
            next hex =>
              have hp := write_file_finish_ok _ _ _ _ _ _ hpt
                (fun b hb => by cases hb) hok
              have h3 : fs' path = some bytes := by
                rw [hp, fsSet_same]
              simp [read_file_bytes, h3, hmr]
  · intro hprior hb1 hb2 hwt hsize
    have hiw : (!true) = false := rfl
    have hex : (fsSet fs temp (some bytes) path).isSome = true := by
      rw [fsSet_other _ _ _ _ (Ne.symm hpt), hprior]
      rfl
    by_cases hrr : f.restore_rename = true
    · by_cases hrc : f.restore_copy = true
      · right
        constructor
        · refine ⟨"Failed to replace file", ?_⟩
          simp [write_file, write_file_finish, hb1, hb2, hwt, hsize, hex]
        · simp [write_file, write_file_finish, hb1, hb2, hwt, hsize, hex, hrr, hrc,
            apply_ite (fun m : FsMap => m bak), fsSet_same,
            fsSet_other _ _ _ _ (Ne.symm htb), fsSet_other _ _ _ _ htb,
            fsSet_other _ _ _ _ (Ne.symm hpt), fsSet_other _ _ _ _ hpb,
            fsSet_other _ _ _ _ (Ne.symm hpb), hprior,
            apply_ite (fun m : FsMap => m path)]
      · left
        simp [write_file, write_file_finish, hb1, hb2, hwt, hsize, hex, hrr, hrc,
          apply_ite (fun m : FsMap => m bak), fsSet_same,
          fsSet_other _ _ _ _ (Ne.symm htb), fsSet_other _ _ _ _ htb,
          fsSet_other _ _ _ _ (Ne.symm hpt), fsSet_other _ _ _ _ hpb,
          fsSet_other _ _ _ _ (Ne.symm hpb), hprior,
          apply_ite (fun m : FsMap => m path)]
    · left
      simp [write_file, write_file_finish, hb1, hb2, hwt, hsize, hex, hrr,
        apply_ite (fun m : FsMap => m bak), fsSet_same,
        fsSet_other _ _ _ _ (Ne.symm htb), fsSet_other _ _ _ _ htb,
        fsSet_other _ _ _ _ (Ne.symm hpt), fsSet_other _ _ _ _ hpb,
        fsSet_other _ _ _ _ (Ne.symm hpb), hprior,
        apply_ite (fun m : FsMap => m path)]

/-- A one-file filesystem for the atomic-write witness: `/f` holds `[9]`. -/
def fs_demo : FsMap := fun p => if p = "/f" then some [9] else none

/-- No filesystem call fails. -/
def failspec_none : FailSpec :=
  ⟨false, false, false, false, false, false, false, false, false⟩

/-- The final rename fails and both restore attempts fail too. -/
def failspec_replace_fail : FailSpec :=
  ⟨false, false, true, true, true, false, false, false, false⟩

/-- Witness for `write_file_atomic`: overwriting `/f` (prior `[9]`) with
`[1, 2]` reads back `[1, 2]`; with the final rename and both restores
failing, an `io_error` is returned and `/f.bak` holds `[9]`. -/
theorem write_file_atomic_witness :
    read_file_bytes 52428800
        (write_file 52428800 true false fs_demo "/f" "/f.tmp" "/f.bak" [1, 2]
          failspec_none).2 "/f" = Except.ok [1, 2] ∧
    ((write_file 52428800 true false fs_demo "/f" "/f.tmp" "/f.bak" [1, 2]
        failspec_replace_fail).2 "/f" = some [9] ∨
      ((∃ msg, (write_file 52428800 true false fs_demo "/f" "/f.tmp" "/f.bak" [1, 2]
          failspec_replace_fail).1 = Except.error (FsError.ioError msg)) ∧
        (write_file 52428800 true false fs_demo "/f" "/f.tmp" "/f.bak" [1, 2]
          failspec_replace_fail).2 "/f.bak" = some [9])) :=
  ⟨(write_file_atomic 52428800 52428800 true false fs_demo "/f" "/f.tmp" "/f.bak"
      [1, 2] failspec_none [9] (by decide) (by decide) (by decide)
      (by decide)).1 _ rfl,
   (write_file_atomic 52428800 52428800 true false fs_demo "/f" "/f.tmp" "/f.bak"
      [1, 2] failspec_replace_fail [9] (by decide) (by decide) (by decide)
      (by decide)).2 (by decide) rfl rfl rfl (by decide)⟩

/-! ## RateLimiter (`rate_limit.rs`) and `check_fs_rate_limit` (`daemon.rs`)

Token bucket per peer. `f64` arithmetic and `Instant` timestamps are
modelled as exact rationals; each `allow()` call carries its `Instant::now()`
value explicitly. `check_fs_rate_limit` creates the limiter with
`RateLimiter::new(100, 50)`. -/

/-- `const REQUESTS_PER_SECOND: u32 = 100` (`daemon.rs`,
`check_fs_rate_limit`). -/
def FS_REQUESTS_PER_SECOND : Nat := 100

/-- `const BURST_SIZE: u32 = 50` (`daemon.rs`, `check_fs_rate_limit`). -/
def FS_BURST_SIZE : Nat := 50

/-- `RateLimiter` (`rate_limit.rs`). -/
structure RateLimiter where
  requests_per_second : ℚ
  burst_size : ℚ
  tokens : ℚ
  last_refill : ℚ
deriving DecidableEq, Repr

/-- `RateLimiter::new`: the bucket starts full. -/
def RateLimiter.new (requests_per_second burst_size : Nat) (now : ℚ) : RateLimiter :=
  ⟨requests_per_second, burst_size, burst_size, now⟩

/-- The refill block of `RateLimiter::allow`: when time elapsed, add
`elapsed * rps` tokens capped at `burst_size` and move `last_refill`. -/
def RateLimiter.refill (rl : RateLimiter) (now : ℚ) : RateLimiter :=
  let elapsed := now - rl.last_refill
  if elapsed > 0 then
    { rl with
        tokens := min (rl.tokens + elapsed * rl.requests_per_second) rl.burst_size,
        last_refill := now }
  else rl

/-- `RateLimiter::allow` at time `now`: refill, then consume one token or
deny with `retry_after_ms = ceil((1 - tokens) / rps * 1000)` (the `as u64`
cast of the nonnegative ceiling). -/
def RateLimiter.allow (rl : RateLimiter) (now : ℚ) : Except Nat Unit × RateLimiter :=
  let rl1 := rl.refill now
  if rl1.tokens ≥ 1 then
    (Except.ok (), { rl1 with tokens := rl1.tokens - 1 })
  else
    (Except.error (⌈(1 - rl1.tokens) / rl1.requests_per_second * 1000⌉.toNat), rl1)

/-- A sequence of `allow()` calls at the given times. -/
def rateLimiterRun (rl : RateLimiter) : List ℚ → List (Except Nat Unit) × RateLimiter
  | [] => ([], rl)
  | t :: ts =>
      let step := rl.allow t
      let rest := rateLimiterRun step.2 ts
      (step.1 :: rest.1, rest.2)

/-- Number of granted requests. -/
def countOk (rs : List (Except Nat Unit)) : Nat :=
  (rs.filter (fun r => match r with | Except.ok _ => true | _ => false)).length

/-- Number of rate-limited requests. -/
def countErr (rs : List (Except Nat Unit)) : Nat :=
  (rs.filter (fun r => match r with | Except.error _ => true | _ => false)).length

theorem countOk_add_countErr (rs : List (Except Nat Unit)) :
    countOk rs + countErr rs = rs.length := by
  induction rs with
  | nil => rfl
  | cons r rest ih =>
      cases r with
      | ok u => simp [countOk, countErr, List.filter_cons] at ih ⊢; omega
      | error e => simp [countOk, countErr, List.filter_cons] at ih ⊢; omega

theorem refill_rps (rl : RateLimiter) (now : ℚ) :
    (rl.refill now).requests_per_second = rl.requests_per_second := by
  unfold RateLimiter.refill
  dsimp only
  split <;> rfl

theorem refill_burst (rl : RateLimiter) (now : ℚ) :
    (rl.refill now).burst_size = rl.burst_size := by
  unfold RateLimiter.refill
  dsimp only
  split <;> rfl

theorem refill_tokens_nonneg (rl : RateLimiter) (now : ℚ)
    (htok : 0 ≤ rl.tokens) (hburst : 0 ≤ rl.burst_size)
    (_hrps : 0 ≤ rl.requests_per_second) (_hlast : rl.last_refill ≤ now) :
    0 ≤ (rl.refill now).tokens := by
  unfold RateLimiter.refill
  dsimp only
  split
  · rename_i hpos
    refine le_min ?_ hburst
    nlinarith
  · exact htok

theorem refill_bound (rl : RateLimiter) (now endT : ℚ)
    (_hrps : 0 ≤ rl.requests_per_second)
    (hlast : rl.last_refill ≤ now) (_hnow : now ≤ endT) :
    (rl.refill now).tokens +
        rl.requests_per_second * (endT - (rl.refill now).last_refill) ≤
      rl.tokens + rl.requests_per_second * (endT - rl.last_refill) ∧
    (rl.refill now).last_refill ≤ now ∧
    rl.last_refill ≤ (rl.refill now).last_refill := by
  unfold RateLimiter.refill
  dsimp only
  split
  · rename_i hpos
    refine ⟨?_, le_refl now, hlast⟩
    have hmin : min (rl.tokens + (now - rl.last_refill) * rl.requests_per_second)
        rl.burst_size ≤
        rl.tokens + (now - rl.last_refill) * rl.requests_per_second :=
      min_le_left _ _
    nlinarith
  · exact ⟨le_refl _, hlast, le_refl _⟩

/-- Token-bucket bound: a run whose request times are sorted, start at or
after the limiter's `last_refill`, and stay within `endT`, grants at most
`tokens + rps · (endT − last_refill)` requests. -/
theorem rateLimiterRun_ok_bound (times : List ℚ) :
    ∀ rl : RateLimiter, ∀ endT : ℚ,
      0 ≤ rl.requests_per_second → 0 ≤ rl.burst_size → 0 ≤ rl.tokens →
      rl.last_refill ≤ endT →
      times.Pairwise (· ≤ ·) →
      (∀ x ∈ times, rl.last_refill ≤ x ∧ x ≤ endT) →
      (countOk (rateLimiterRun rl times).1 : ℚ) ≤
        rl.tokens + rl.requests_per_second * (endT - rl.last_refill) := by
  induction times with
  | nil =>
      intro rl endT hrps hburst htok hend _ _
      simp only [rateLimiterRun, countOk, List.filter_nil, List.length_nil,
        Nat.cast_zero]
      nlinarith
  | cons t ts ih =>
      intro rl endT hrps hburst htok hend hsort hmem
      obtain ⟨hlo, hhi⟩ := hmem t (List.mem_cons_self t ts)
      obtain ⟨hb1, hb2, hb3⟩ := refill_bound rl t endT hrps hlo hhi
      have hrps1 := refill_rps rl t
      have hburst1 := refill_burst rl t
      have htok1 : 0 ≤ (rl.refill t).tokens :=
        refill_tokens_nonneg rl t htok hburst hrps hlo
      have hsort' := (List.pairwise_cons.mp hsort).2
      have hhead := (List.pairwise_cons.mp hsort).1
      have hmemRest : ∀ x ∈ ts, (rl.refill t).last_refill ≤ x ∧ x ≤ endT := by
        intro x hx
        exact ⟨hb2.trans (hhead x hx), (hmem x (List.mem_cons_of_mem t hx)).2⟩
      have key : (rateLimiterRun rl (t :: ts)).1 =
          (rl.allow t).1 :: (rateLimiterRun (rl.allow t).2 ts).1 := rfl
      rw [key]
      by_cases hge : (rl.refill t).tokens ≥ 1
      · have h1 : (rl.allow t).1 = Except.ok () := by
          unfold RateLimiter.allow
          dsimp only
          rw [if_pos hge]
        have h2 : (rl.allow t).2 = RateLimiter.mk (rl.refill t).requests_per_second
            (rl.refill t).burst_size ((rl.refill t).tokens - 1)
            (rl.refill t).last_refill := by
          unfold RateLimiter.allow
          dsimp only
          rw [if_pos hge]
        rw [h1, h2]
        have hco : ∀ L, countOk (Except.ok () :: L) = countOk L + 1 := by
          intro L
          simp [countOk, List.filter_cons]
        rw [hco]
        have ihh := ih (RateLimiter.mk (rl.refill t).requests_per_second
            (rl.refill t).burst_size ((rl.refill t).tokens - 1)
            (rl.refill t).last_refill) endT
          (by show (0 : ℚ) ≤ (rl.refill t).requests_per_second
              rw [hrps1]; exact hrps)
          (by show (0 : ℚ) ≤ (rl.refill t).burst_size
              rw [hburst1]; exact hburst)
          (by show (0 : ℚ) ≤ (rl.refill t).tokens - 1
              linarith)
          (by show (rl.refill t).last_refill ≤ endT
              exact hb2.trans hhi)
          hsort'
          hmemRest
        dsimp only at ihh
        rw [hrps1] at ihh ⊢
        push_cast
        linarith
      · have h1 : (rl.allow t).1 = Except.error (⌈(1 - (rl.refill t).tokens) /
            (rl.refill t).requests_per_second * 1000⌉.toNat) := by
          unfold RateLimiter.allow
          dsimp only
          rw [if_neg hge]
        have h2 : (rl.allow t).2 = rl.refill t := by
          unfold RateLimiter.allow
          dsimp only
          rw [if_neg hge]
        rw [h1, h2]
        have hco : ∀ e L, countOk (Except.error e :: L) = countOk L := by
          intro e L
          simp [countOk, List.filter_cons]
        rw [hco]
        have ihh := ih (rl.refill t) endT
          (by rw [hrps1]; exact hrps)
          (by rw [hburst1]; exact hburst)
          htok1
          (hb2.trans hhi)
          hsort'
          hmemRest
        rw [hrps1] at ihh
        linarith

/-- On a denial, `retry_after_ms` is the ceiling of the exact
`(deficit / rps) · 1000`, hence within 1 ms of it. -/
theorem allow_deny_retry_accuracy (rl : RateLimiter) (now : ℚ) (r : Nat)
    (rl' : RateLimiter) (hrps : 0 < rl.requests_per_second)
    (h : rl.allow now = (Except.error r, rl')) :
    |(r : ℚ) - (1 - rl'.tokens) / rl.requests_per_second * 1000| ≤ 10 := by
  have hrps1 := refill_rps rl now
  unfold RateLimiter.allow at h
  dsimp only at h
  split at h
  · simp at h
  · rename_i hlt
    injection h with h1 h2
    injection h1 with h1
    subst h2
    subst h1
    rw [hrps1]
    set x : ℚ := (1 - (rl.refill now).tokens) / rl.requests_per_second * 1000 with hx
    have htoklt : (rl.refill now).tokens < 1 := lt_of_not_ge hlt
    have hxpos : 0 < x := by
      rw [hx]
      have : 0 < 1 - (rl.refill now).tokens := by linarith
      positivity
    have hceil_pos : 0 < ⌈x⌉ := Int.ceil_pos.mpr hxpos
    have hcast : ((⌈x⌉.toNat : ℚ)) = (⌈x⌉ : ℚ) := by
      exact_mod_cast congrArg (fun z : ℤ => (z : ℚ)) (Int.toNat_of_nonneg hceil_pos.le)
    rw [hcast]
    have hle : x ≤ (⌈x⌉ : ℚ) := Int.le_ceil x
    have hlt1 : (⌈x⌉ : ℚ) < x + 1 := Int.ceil_lt_add_one x
    rw [abs_le]
    constructor <;> linarith

theorem rateLimiterRun_length (times : List ℚ) :
    ∀ rl : RateLimiter, (rateLimiterRun rl times).1.length = times.length := by
  induction times with
  | nil => intro rl; rfl
  | cons u us ih =>
      intro rl
      have hstep : (rateLimiterRun rl (u :: us)).1 =
          (rl.allow u).1 :: (rateLimiterRun (rl.allow u).2 us).1 := rfl
      rw [hstep]
      simp [ih]

/-- **C9** — Rate limiter accuracy (`f64` arithmetic and `Instant`
modelled as exact rationals): with the `check_fs_rate_limit` parameters
(`rps = 100`, `burst = 50`), a peer issuing its requests at sorted times
within a window of length `t` gets at most `burst + rps·t` grants, so at
least `N − (burst + rps·t)` of its `N` requests receive `rate_limited`;
and every denial's `retry_after_ms` is within ±10 ms (in fact within
1 ms) of `(deficit / rps) · 1000`, where the deficit is `1` minus the
remaining fractional tokens at the time of denial. -/
theorem rate_limiter_accuracy (t0 t : ℚ) (times : List ℚ)
    (ht : 0 ≤ t)
    (hsort : times.Pairwise (· ≤ ·))
    (hlo : ∀ x ∈ times, t0 ≤ x)
    (hhi : ∀ x ∈ times, x ≤ t0 + t) :
    (countOk (rateLimiterRun
        (RateLimiter.new FS_REQUESTS_PER_SECOND FS_BURST_SIZE t0) times).1 : ℚ) ≤
      (FS_BURST_SIZE : ℚ) + (FS_REQUESTS_PER_SECOND : ℚ) * t ∧
    (times.length : ℚ) - ((FS_BURST_SIZE : ℚ) + (FS_REQUESTS_PER_SECOND : ℚ) * t) ≤
      (countErr (rateLimiterRun
        (RateLimiter.new FS_REQUESTS_PER_SECOND FS_BURST_SIZE t0) times).1 : ℚ) ∧
    (∀ (rl : RateLimiter) (now : ℚ) (r : Nat) (rl' : RateLimiter),
      0 < rl.requests_per_second →
      rl.allow now = (Except.error r, rl') →
      |(r : ℚ) - (1 - rl'.tokens) / rl.requests_per_second * 1000| ≤ 10) := by
  have hbound := rateLimiterRun_ok_bound times
    (RateLimiter.new FS_REQUESTS_PER_SECOND FS_BURST_SIZE t0) (t0 + t)
    (by norm_num [RateLimiter.new, FS_REQUESTS_PER_SECOND])
    (by norm_num [RateLimiter.new, FS_BURST_SIZE])
    (by norm_num [RateLimiter.new, FS_BURST_SIZE])
    (by simp [RateLimiter.new]; linarith)
    hsort
    (fun x hx => ⟨hlo x hx, hhi x hx⟩)
  have hbound' : (countOk (rateLimiterRun
      (RateLimiter.new FS_REQUESTS_PER_SECOND FS_BURST_SIZE t0) times).1 : ℚ) ≤
      (FS_BURST_SIZE : ℚ) + (FS_REQUESTS_PER_SECOND : ℚ) * t := by
    have : ((RateLimiter.new FS_REQUESTS_PER_SECOND FS_BURST_SIZE t0).tokens : ℚ) =
        (FS_BURST_SIZE : ℚ) := rfl
    simp only [RateLimiter.new] at hbound
    calc (countOk _ : ℚ) ≤ _ := hbound
    _ = (FS_BURST_SIZE : ℚ) + (FS_REQUESTS_PER_SECOND : ℚ) * t := by ring
  refine ⟨hbound', ?_, fun rl now r rl' h1 h2 =>
    allow_deny_retry_accuracy rl now r rl' h1 h2⟩
  have hsum := countOk_add_countErr (rateLimiterRun
    (RateLimiter.new FS_REQUESTS_PER_SECOND FS_BURST_SIZE t0) times).1
  have hlen := rateLimiterRun_length times
    (RateLimiter.new FS_REQUESTS_PER_SECOND FS_BURST_SIZE t0)
  rw [hlen] at hsum
  have hcast : (countOk (rateLimiterRun
      (RateLimiter.new FS_REQUESTS_PER_SECOND FS_BURST_SIZE t0) times).1 : ℚ) +
      (countErr (rateLimiterRun
        (RateLimiter.new FS_REQUESTS_PER_SECOND FS_BURST_SIZE t0) times).1 : ℚ) =
      (times.length : ℚ) := by
    exact_mod_cast congrArg (fun n : Nat => (n : ℚ)) hsum
  linarith

/-- Witness for `rate_limiter_accuracy`: two instantaneous requests at
time 0 in a zero-length window, and a concrete denial (half a token left,
exact retry 5 ms) within the ±10 ms tolerance. -/
theorem rate_limiter_accuracy_witness :
    (countOk (rateLimiterRun
        (RateLimiter.new FS_REQUESTS_PER_SECOND FS_BURST_SIZE 0) [0, 0]).1 : ℚ) ≤
      (FS_BURST_SIZE : ℚ) + (FS_REQUESTS_PER_SECOND : ℚ) * 0 ∧
    |((⌈(1 - (RateLimiter.mk 100 50 (1/2) 0).tokens) /
          (RateLimiter.mk 100 50 (1/2) 0).requests_per_second * 1000⌉.toNat : ℚ)) -
        (1 - (RateLimiter.mk 100 50 (1/2) 0).tokens) /
          (RateLimiter.mk 100 50 (1/2) 0).requests_per_second * 1000| ≤ 10 := by
  have hmain := rate_limiter_accuracy 0 0 [0, 0] (le_refl 0)
    (by simp)
    (by intro x hx; fin_cases hx <;> norm_num)
    (by intro x hx; fin_cases hx <;> norm_num)
  refine ⟨hmain.1, ?_⟩
  have hallow : (RateLimiter.mk 100 50 (1/2) 0).allow 0 =
      (Except.error (⌈(1 - (RateLimiter.mk 100 50 (1/2) 0).tokens) /
          (RateLimiter.mk 100 50 (1/2) 0).requests_per_second * 1000⌉.toNat),
        RateLimiter.mk 100 50 (1/2) 0) := by
    unfold RateLimiter.allow RateLimiter.refill
    norm_num
  exact hmain.2.2 (RateLimiter.mk 100 50 (1/2) 0) 0 _
    (RateLimiter.mk 100 50 (1/2) 0) (by norm_num) hallow

/-! ## Recursive copy (`operations.rs`, `copy_dir_recursive`, lines 664–704)

`copy_dir_recursive` reads each entry's metadata with
`entry.metadata()`, which does **not** traverse symlinks, so a symlink
entry is not a directory and falls to the `fs::copy` branch; `fs::copy`
follows the link and copies the target's contents. The function contains
no `follow_symlinks` check at all. Symlink targets are resolved through
an oracle: `some data` when the target is a readable regular file, `none`
when `fs::copy` would fail (directory or dangling target). -/

/-- A directory tree as read by `copy_dir_recursive`. -/
inductive FsNode where
  | file (data : List Nat)
  | dir (entries : List (String × FsNode))
  | symlink (target : String)

mutual

/-- One entry of `copy_dir_recursive`'s loop: `meta.is_dir()` (metadata
without traversing symlinks) chooses recursion, everything else goes
through `fs::copy`, which follows symlinks. Returns the node created at
the destination. -/
def copy_node (resolve : String → Option (List Nat)) :
    FsNode → Except FsError FsNode
  | FsNode.file data => Except.ok (FsNode.file data)
  | FsNode.symlink target =>
      match resolve target with
      | some data => Except.ok (FsNode.file data)
      | none => Except.error (FsError.ioError "copy failed")
  | FsNode.dir entries =>
      match copy_entries resolve entries with
      | Except.ok entries' => Except.ok (FsNode.dir entries')
      | Except.error e => Except.error e

/-- The `while let Some(entry) = read_dir.next_entry()` loop. -/
def copy_entries (resolve : String → Option (List Nat)) :
    List (String × FsNode) → Except FsError (List (String × FsNode))
  | [] => Except.ok []
  | (name, node) :: rest =>
      match copy_node resolve node with
      | Except.error e => Except.error e
      | Except.ok node' =>
          match copy_entries resolve rest with
          | Except.error e => Except.error e
          | Except.ok rest' => Except.ok ((name, node') :: rest')

end

/-- **C8 (code evaluation)** — `copy_dir_recursive` does not refuse
symlink entries: copying the directory
`{a.txt ↦ file [1], link.txt ↦ symlink "/t/real_target.txt"}` — the
scenario of the repository's own test
`test_copy_directory_blocks_symlink_entries`, which asserts
`PermissionDenied` — succeeds, and the symlink's target content is
replicated into the destination as a regular file. -/
theorem copy_dir_symlink_not_refused :
    copy_node (fun t => if t = "/t/real_target.txt" then some [7] else none)
      (FsNode.dir [("a.txt", FsNode.file [1]),
        ("link.txt", FsNode.symlink "/t/real_target.txt")]) =
      Except.ok (FsNode.dir [("a.txt", FsNode.file [1]),
        ("link.txt", FsNode.file [7])]) := by
  rfl
